import Mathlib

/-!
Verification of the app-store ETL pipeline (transformation, quality gate,
duplicate reconciliation and serving layers) against its specification.

The Python sources are shallowly embedded:
* dictionaries of raw JSON records become structures with `Option` fields
  (a `none` field models an absent key);
* Python scalar values that the code passes to coercion helpers are modelled
  by `PyVal` (a string or an integer);
* pandas column operations become row-wise list operations; `pandas`
  sort_values / groupby are modelled with a stable sort over sorted keys;
* the external parsing collaborators (`int()`, `float()`, `pd.to_numeric`,
  `pd.to_datetime`, `strftime`) are given executable models: decimal parsing
  for numbers, and an injective rendering of timestamps (a `D` followed by
  the decimal value) for `pd.to_datetime` / `strftime`;
* `datetime.now()` becomes an explicit `now : Nat` argument.
-/

/-- A Python scalar value as handled by the coercion helpers: either a raw
string or an integer. -/
inductive PyVal where
  | s (v : String)
  | i (n : Int)
deriving DecidableEq, Repr

/-- Python `str()` applied to a `PyVal` (integers render in decimal, as in
Python). -/
def pyStr : PyVal → String
  | .s v => v
  | .i n => toString n

/-- Numeric value of a list of decimal digit characters. -/
def digitsVal (cs : List Char) : Nat :=
  cs.foldl (fun n c => n * 10 + (c.toNat - 48)) 0

/-- Model of Python `int(s)`: optional surrounding whitespace, optional sign,
then decimal digits with single underscores allowed strictly between digits. -/
def pyInt (s : String) : Option Int :=
  let t := ((s.data.dropWhile Char.isWhitespace).reverse.dropWhile Char.isWhitespace).reverse
  let (sgn, body) : Int × List Char :=
    match t with
    | '-' :: rest => (-1, rest)
    | '+' :: rest => (1, rest)
    | rest => (1, rest)
  let okCore : Bool :=
    (!body.isEmpty) &&
    body.all (fun c => c.isDigit || c = '_') &&
    (match body.head? with | some c => c.isDigit | none => false) &&
    (match body.getLast? with | some c => c.isDigit | none => false) &&
    (body.zip body.tail).all (fun p => !(p.1 = '_' && p.2 = '_'))
  if okCore then some (sgn * (digitsVal (body.filter (· ≠ '_')) : Int)) else none

/-- Splits a character list at its unique dot: `some (a, b)` when the input
is a, a dot, then b, with no other dot anywhere; `none` when the input has
no dot or more than one. -/
def dotSplit : List Char → Option (List Char × List Char)
  | [] => none
  | c :: rest =>
      if c = '.' then
        if '.' ∈ rest then none else some ([], rest)
      else
        match dotSplit rest with
        | some (a, b) => some (c :: a, b)
        | none => none

/-- Model of decimal parsing as done by Python `float()` and
`pd.to_numeric(errors=coerce)` on plain decimal strings: an optional minus
sign, digits with at most one dot and at least one digit. -/
def parseDec (s : String) : Option ℚ :=
  let (sgn, body) : Int × List Char :=
    match s.data with
    | '-' :: rest => (-1, rest)
    | rest => (1, rest)
  match dotSplit body with
  | none =>
      if (!body.isEmpty) && body.all Char.isDigit then some (mkRat (sgn * digitsVal body) 1)
      else none
  | some (a, b) =>
      if (!(a ++ b).isEmpty) && (a ++ b).all Char.isDigit then
        some (mkRat (sgn * digitsVal (a ++ b)) (10 ^ b.length))
      else none

/-- `pd.to_numeric(errors=coerce)` on a Python scalar. -/
def toNumeric : PyVal → Option ℚ
  | .i n => some (n : ℚ)
  | .s v => parseDec v

/-- Truncation toward zero, as performed by `astype(int)` on a float column. -/
def truncInt (q : ℚ) : Int :=
  if 0 ≤ q then ⌊q⌋ else -⌊-q⌋

/-- Model of `strftime` on our abstract timestamps: an injective rendering
that the `to_datetime` model parses back. -/
def fmtTime (t : Nat) : String :=
  "D" ++ toString t

/-- Model of `pd.to_datetime(errors=coerce)` on a single cell: parses the
rendering produced by `fmtTime`, anything else is unparseable (`NaT`). -/
def to_datetime (s : String) : Option Nat :=
  match s.data with
  | 'D' :: rest =>
      if (!rest.isEmpty) && rest.all Char.isDigit then some (digitsVal rest) else none
  | _ => none

/-- The regex substitution of the installs coercion: drop every comma and
plus character (Python: re.sub over the class comma-plus). -/
def stripCommasPlus (s : String) : String :=
  String.mk (s.data.filter (fun c => c ≠ ',' ∧ c ≠ '+'))

/-- The regex substitution of the price coercion: keep only digits and dots
(Python: re.sub removing every non-digit, non-dot character). -/
def stripNonDigitDot (s : String) : String :=
  String.mk (s.data.filter (fun c => c.isDigit ∨ c = '.'))

/-- A raw app record (a JSON object from apps_metadata.json); `none` models
an absent key, mirroring dict.get defaults in the source. -/
structure RawApp where
  appId : Option String
  title : Option String
  developer : Option String
  score : Option ℚ
  ratings : Option Int
  installs : Option PyVal
  genre : Option String
  genreId : Option String
  price : Option PyVal
deriving DecidableEq, Repr

/-- A transformed app row of the target schema
appId, title, developer, score, ratings, installs, genre, price. -/
structure AppRow where
  appId : String
  title : String
  developer : String
  score : Option ℚ
  ratings : Int
  installs : Int
  genre : String
  price : ℚ
deriving DecidableEq, Repr

/-- The body of the per-record try block of transform_apps_data: coerces one
raw app, `none` when a coercion raises (installs or price fail to parse). -/
def coerceApp (a : RawApp) : Option AppRow :=
  let installs_str := a.installs.getD (.s "0")
  match pyInt (stripCommasPlus (pyStr installs_str)) with
  | none => none
  | some installs =>
    let price_str := a.price.getD (.s "0")
    let priceOpt : Option ℚ :=
      if price_str = .i 0 ∨ price_str = .s "0" then some 0
      else parseDec (stripNonDigitDot (pyStr price_str))
    match priceOpt with
    | none => none
    | some price =>
      let genre := a.genre.getD (a.genreId.getD "Unknown")
      let score : Option ℚ :=
        match a.score with
        | none => none
        | some q => if q = 0 then none else some q
      some { appId := a.appId.getD ""
             title := a.title.getD "Unknown"
             developer := a.developer.getD "Unknown"
             score := score
             ratings := a.ratings.getD 0
             installs := installs
             genre := genre
             price := price }

/-- The for-loop of transform_apps_data: accumulates transformed rows in
order and counts per-record coercion failures (the except branch). -/
def transformAppsLoop : List RawApp → List AppRow × Nat
  | [] => ([], 0)
  | a :: rest =>
      let (rows, errs) := transformAppsLoop rest
      match coerceApp a with
      | some row => (row :: rows, errs)
      | none => (rows, errs + 1)

/-- drop_duplicates(subset, keep=first) keyed by a string field. -/
def dropDupFirstBy {α : Type} (key : α → String) : List String → List α → List α
  | _, [] => []
  | seen, r :: rs =>
      if key r ∈ seen then dropDupFirstBy key seen rs
      else r :: dropDupFirstBy key (key r :: seen) rs

/-- transform_apps_data: per-record coercion loop, then
drop_duplicates(subset=appId, keep=first); returns the catalog rows and the
error count. -/
def transform_apps_data (apps : List RawApp) : List AppRow × Nat :=
  let (rows, errs) := transformAppsLoop apps
  (dropDupFirstBy (fun r => r.appId) [] rows, errs)

/-- The raw value of a review timestamp cell: a native datetime object or a
free-text string (absence is modelled by `Option` at the field). -/
inductive RawTime where
  | dt (t : Nat)
  | str (s : String)
deriving DecidableEq, Repr

/-- A raw review record (one line of apps_reviews.jsonl); every field the
source probes with dict.get, `none` when the key is absent. -/
structure RawReview where
  app_id : Option String
  reviewId : Option String
  userName : Option String
  score : Option PyVal
  rating : Option PyVal
  content : Option String
  thumbsUpCount : Option PyVal
  thumbsUp : Option PyVal
  helpfulCount : Option PyVal
  at' : Option RawTime
deriving DecidableEq, Repr

/-- Python content.split() on whitespace: maximal non-whitespace runs, in
order, with the current run carried in an accumulator. -/
def wordsAux : List Char → List Char → List (List Char)
  | cur, [] => if cur.isEmpty then [] else [cur.reverse]
  | cur, c :: rest =>
      if c.isWhitespace then
        if cur.isEmpty then wordsAux [] rest
        else cur.reverse :: wordsAux [] rest
      else wordsAux (c :: cur) rest

/-- The content cleaning of the review loop: single spaces joined over the
whitespace-split words. -/
def normWs (s : String) : String :=
  String.mk (List.intercalate [' '] (wordsAux [] s.data))

/-- get_app_name_mapping: later raw apps overwrite earlier ones in the dict,
so the lookup takes the last matching pair; apps with an empty appId are not
entered. -/
def get_app_name_mapping (apps : List RawApp) : List (String × String) :=
  apps.foldl
    (fun acc a =>
      let app_id := a.appId.getD ""
      if app_id = "" then acc else acc ++ [(app_id, a.title.getD "Unknown")])
    []

/-- Dict lookup where later insertions shadow earlier ones. -/
def lookupLast (m : List (String × String)) (k : String) : Option String :=
  m.reverse.lookup k

/-- The timestamp-to-string step of the review loop: datetime objects are
formatted, truthy (non-empty) strings pass through unchanged, and anything
else (absent key, empty string) is replaced by the formatted current time. -/
def atStr (now : Nat) : Option RawTime → String
  | some (.dt t) => fmtTime t
  | some (.str s) => if s = "" then fmtTime now else s
  | none => fmtTime now

/-- An intermediate transformed review row as built inside the loop of
transform_reviews_data (scores and counters still raw scalars, timestamp a
string). -/
structure TRow where
  app_id : String
  app_name : String
  reviewId : String
  userName : String
  score : PyVal
  content : String
  thumbsUpCount : PyVal
  at' : String
deriving DecidableEq, Repr

/-- The body of the per-record try block of transform_reviews_data: `none`
when the record is skipped because its app_id is not in the catalog. -/
def reviewLoopBody (V : List String) (m : List (String × String)) (now : Nat)
    (r : RawReview) : Option TRow :=
  let app_id := r.app_id.getD ""
  if app_id ∈ V then
    some { app_id := app_id
           app_name := (lookupLast m app_id).getD "Unknown"
           reviewId := r.reviewId.getD ""
           userName := r.userName.getD "Anonymous"
           score := r.score.getD (r.rating.getD (.i 0))
           content := normWs (r.content.getD "")
           thumbsUpCount := r.thumbsUpCount.getD (r.thumbsUp.getD (r.helpfulCount.getD (.i 0)))
           at' := atStr now r.at' }
  else none

/-- The for-loop of transform_reviews_data: transformed rows in order plus
the skipped counter (reviews for apps not in the catalog). -/
def reviewsLoop (V : List String) (m : List (String × String)) (now : Nat) :
    List RawReview → List TRow × Nat
  | [] => ([], 0)
  | r :: rs =>
      let (ts, sk) := reviewsLoop V m now rs
      match reviewLoopBody V m now r with
      | some t => (t :: ts, sk)
      | none => (ts, sk + 1)

/-- A fully coerced review row of the processed store (score numeric,
timestamp parsed, counter an integer). -/
structure FinalReview where
  app_id : String
  app_name : String
  reviewId : String
  userName : String
  score : ℚ
  content : String
  thumbsUpCount : Int
  at' : Nat
deriving DecidableEq, Repr

/-- The column-wise coercions and the dropna of transform_reviews_data,
applied to one row: to_numeric on score (NaN rejected by dropna), to_numeric
+ fillna(0) + astype(int) on thumbsUpCount, to_datetime on the timestamp
(NaT rejected by dropna). -/
def coerceTRow (t : TRow) : Option FinalReview :=
  match toNumeric t.score, to_datetime t.at' with
  | some sc, some a =>
      some { app_id := t.app_id
             app_name := t.app_name
             reviewId := t.reviewId
             userName := t.userName
             score := sc
             content := t.content
             thumbsUpCount := truncInt ((toNumeric t.thumbsUpCount).getD 0)
             at' := a }
  | _, _ => none

/-- A processed reviews table: the header columns and the surviving rows. -/
structure Table where
  cols : List String
  rows : List FinalReview
deriving DecidableEq, Repr

/-- The column list of the early-return empty DataFrame of
transform_reviews_data. -/
def emptyReviewCols : List String :=
  ["app_id", "app_name", "reviewId", "userName", "score", "content", "thumbsUpCount", "at"]

/-- The column order of the transformed_review dict literal built in the
loop, which becomes the DataFrame header in the non-empty path. -/
def reviewDictCols : List String :=
  ["app_id", "app_name", "reviewId", "userName", "score", "content", "thumbsUpCount", "at"]

/-- transform_reviews_data: the per-record loop, the empty early return with
explicit columns, and otherwise duplicate-reviewId removal (keep first)
followed by the numeric/timestamp coercions and dropna; returns the table
and the skipped counter. -/
def transform_reviews_data (reviews : List RawReview) (V : List String)
    (m : List (String × String)) (now : Nat) : Table × Nat :=
  let (trows, skipped) := reviewsLoop V m now reviews
  if trows.isEmpty then
    ({ cols := emptyReviewCols, rows := [] }, skipped)
  else
    let dd := dropDupFirstBy (fun t => t.reviewId) [] trows
    ({ cols := reviewDictCols, rows := dd.filterMap coerceTRow }, skipped)

/-- The result of a successful run of the transformation stage entry point. -/
structure RunResult where
  catalog : List AppRow
  reviewsTable : Table
  warnedNoReviews : Bool
deriving DecidableEq, Repr

/-- The main function of the transformation stage: transforms apps, filters
reviews against the catalog appId set, and aborts (raises) exactly when no
app survived; with at least one app it saves both outputs, warning (not
failing) when no review survived. -/
def transformationMain (apps : List RawApp) (reviews : List RawReview) (now : Nat) :
    Except String RunResult :=
  let catalog := (transform_apps_data apps).1
  let valid_app_ids := catalog.map (fun r => r.appId)
  let m := get_app_name_mapping apps
  let tbl := (transform_reviews_data reviews valid_app_ids m now).1
  if 0 < catalog.length then
    .ok { catalog := catalog, reviewsTable := tbl, warnedNoReviews := tbl.rows.length = 0 }
  else
    .error "No apps transformed successfully"

/-- A row of the dirty reviews CSV as loaded by scenario 3 (dtype=str: every
cell a string, `none` for an empty/missing cell). Only the columns the
validation touches are modelled. -/
structure CsvRow where
  reviewId : Option String
  userName : Option String
  score : Option String
  content : Option String
  thumbsUpCount : Option String
  at' : Option String
deriving DecidableEq, Repr

/-- A row after the type-conversion step of process_with_validation
(to_numeric / to_datetime with coercion, so failures are `none`). -/
structure ConvRow where
  reviewId : Option String
  userName : Option String
  score : Option ℚ
  content : Option String
  thumbsUpCount : Option ℚ
  at' : Option Nat
deriving DecidableEq, Repr

/-- Step 1 of process_with_validation: convert the score, thumbsUpCount and
timestamp columns with coercing parsers (a missing cell stays missing). -/
def convertTypes (r : CsvRow) : ConvRow :=
  { reviewId := r.reviewId
    userName := r.userName
    score := r.score.bind parseDec
    content := r.content
    thumbsUpCount := r.thumbsUpCount.bind parseDec
    at' := r.at'.bind to_datetime }

/-- The out-of-range test of step 2: score strictly below 1 or above 5 (on
the rows whose score converted). -/
def outOfRange (r : ConvRow) : Bool :=
  match r.score with
  | some s => decide (s < 1) || decide (5 < s)
  | none => false

/-- Step 4 of process_with_validation: fillna(0) then clip negative
thumbsUpCount values to 0. -/
def fixThumbs (r : ConvRow) : ConvRow :=
  let v := r.thumbsUpCount.getD 0
  { r with thumbsUpCount := some (if v < 0 then 0 else v) }

/-- Step 5 of process_with_validation: fill missing content with the empty
string and missing userName with Anonymous. -/
def fillText (r : ConvRow) : ConvRow :=
  { r with content := some (r.content.getD ""), userName := some (r.userName.getD "Anonymous") }

/-- process_with_validation of scenario 3: type conversion, removal of null
scores, removal of out-of-range scores, removal of null timestamps, then
the thumbsUpCount repair and the text fills. -/
def process_with_validation (rows : List CsvRow) : List ConvRow :=
  let cleaned := rows.map convertTypes
  let cleaned := cleaned.filter (fun r => r.score.isSome)
  let cleaned := cleaned.filter (fun r => !outOfRange r)
  let cleaned := cleaned.filter (fun r => r.at'.isSome)
  let cleaned := cleaned.map fixThumbs
  cleaned.map fillText

/-- An app record of the updated-apps CSV handled by scenario 4; fields the
ranking inspects plus the payload fields, optional where the CSV may hold
NaN. -/
structure DApp where
  appId : String
  title : Option String
  developer : Option String
  score : Option ℚ
  ratings : Int
  installs : Option Int
  genre : Option String
  price : Option ℚ
deriving DecidableEq, Repr

/-- The has_score helper column of pick_best_record. -/
def hasScore (a : DApp) : Bool :=
  a.score.isSome

/-- The complete_fields helper column of pick_best_record: the notna count
across the row (the always-present columns and the added has_score column
contribute a constant). -/
def complete_fields (a : DApp) : Nat :=
  3 + (if a.title.isSome then 1 else 0) + (if a.developer.isSome then 1 else 0) +
    (if a.score.isSome then 1 else 0) + (if a.installs.isSome then 1 else 0) +
    (if a.genre.isSome then 1 else 0) + (if a.price.isSome then 1 else 0)

/-- The multi-key ranking tuple of pick_best_record:
(has_score, ratings, complete_fields). -/
def sortKey (a : DApp) : Bool × Int × Nat :=
  (hasScore a, a.ratings, complete_fields a)

/-- Descending lexicographic comparison of ranking tuples: true when the
first argument ranks at least as high as the second. -/
def keyGe : Bool × Int × Nat → Bool × Int × Nat → Bool
  | (s1, r1, c1), (s2, r2, c2) =>
      if s1 ≠ s2 then s1
      else if r1 ≠ r2 then decide (r2 < r1)
      else decide (c2 ≤ c1)

/-- The comparator realising sort_values on
[has_score, ratings, complete_fields] with ascending=[False, False, False]. -/
def rankGe (a b : DApp) : Bool :=
  keyGe (sortKey a) (sortKey b)

/-- The ranking comparison as a relation, for the stable sort. -/
def RankGe (a b : DApp) : Prop :=
  rankGe a b = true

instance : DecidableRel RankGe := fun a b => decEq (rankGe a b) true

/-- pick_best_record: a singleton group is returned as is; otherwise the
group is stably sorted by the descending ranking keys and the first row is
returned (insertion sort: every stable sort produces this same list). -/
def pick_best_record (g : List DApp) : Option DApp :=
  if g.length = 1 then g.head?
  else (g.insertionSort RankGe).head?

/-- handle_duplicates_smart: groupby(appId) (group keys sorted, rows kept in
input order inside each group) and pick_best_record applied per group. -/
def handle_duplicates_smart (apps : List DApp) : List DApp :=
  let keys := ((apps.map (fun a => a.appId)).dedup).insertionSort (fun a b => a ≤ b)
  keys.filterMap (fun k => pick_best_record (apps.filter (fun a => a.appId = k)))

/-- One AppKPI row of the serving layer. -/
structure KpiRow where
  app_id : String
  num_reviews : Nat
  avg_rating : ℚ
  pct_low_rating : ℚ
  first_review_date : Nat
  most_recent_review_date : Nat
deriving DecidableEq, Repr

/-- One DailyMetric row of the serving layer. -/
structure DailyRow where
  date : Nat
  daily_num_reviews : Nat
  daily_avg_rating : ℚ
deriving DecidableEq, Repr

/-- Rounding to two decimals as applied by the serving layer. -/
def round2 (q : ℚ) : ℚ :=
  (round (q * 100) : ℚ) / 100

/-- The calendar date of a timestamp (dt.date: truncation to the day). -/
def dateOf (t : Nat) : Nat :=
  t / 86400

/-- The aggregation row of create_app_level_kpis for one app group. -/
def mkKpiRow (k : String) (g : List FinalReview) : KpiRow :=
  { app_id := k
    num_reviews := g.length
    avg_rating := round2 ((g.map (fun r => r.score)).sum / g.length)
    pct_low_rating := round2 (((g.filter (fun r => r.score ≤ 2)).length : ℚ) / g.length * 100)
    first_review_date := ((g.map (fun r => r.at')).min?).getD 0
    most_recent_review_date := ((g.map (fun r => r.at')).max?).getD 0 }

/-- create_app_level_kpis: groupby app_id (sorted keys) with count, mean,
low-rating share and date range per group, then sort by num_reviews
descending. -/
def create_app_level_kpis (rows : List FinalReview) : List KpiRow :=
  let keys := ((rows.map (fun r => r.app_id)).dedup).insertionSort (fun a b => a ≤ b)
  let kpis := keys.map (fun k => mkKpiRow k (rows.filter (fun r => r.app_id = k)))
  kpis.insertionSort (fun a b => b.num_reviews ≤ a.num_reviews)

/-- The aggregation row of create_daily_metrics for one date group. -/
def mkDailyRow (d : Nat) (g : List FinalReview) : DailyRow :=
  { date := d
    daily_num_reviews := g.length
    daily_avg_rating := round2 ((g.map (fun r => r.score)).sum / g.length) }

/-- create_daily_metrics: groupby calendar date (sorted keys) with count and
mean per group, then sort by date ascending. -/
def create_daily_metrics (rows : List FinalReview) : List DailyRow :=
  let keys := ((rows.map (fun r => dateOf r.at')).dedup).insertionSort (fun a b => a ≤ b)
  let daily := keys.map (fun d => mkDailyRow d (rows.filter (fun r => dateOf r.at' = d)))
  daily.insertionSort (fun a b => a.date ≤ b.date)

/-! Helper lemmas about the embedded operations. -/

theorem transformAppsLoop_eq (apps : List RawApp) :
    transformAppsLoop apps
      = (apps.filterMap coerceApp, (apps.filter (fun a => (coerceApp a).isNone)).length) := by
  induction apps with
  | nil => rfl
  | cons a rest ih =>
      cases h : coerceApp a with
      | none => simp [transformAppsLoop, ih, h, List.filterMap_cons, List.filter_cons]
      | some row => simp [transformAppsLoop, ih, h, List.filterMap_cons, List.filter_cons]

theorem reviewLoopBody_eq_none_iff (V : List String) (m : List (String × String)) (now : Nat)
    (r : RawReview) : reviewLoopBody V m now r = none ↔ ¬ (r.app_id.getD "" ∈ V) := by
  by_cases hv : r.app_id.getD "" ∈ V <;> simp [reviewLoopBody, hv]

theorem reviewLoopBody_app_id (V : List String) (m : List (String × String)) (now : Nat)
    (r : RawReview) (t : TRow) (h : reviewLoopBody V m now r = some t) : t.app_id ∈ V := by
  by_cases hv : r.app_id.getD "" ∈ V
  · simp only [reviewLoopBody, if_pos hv] at h
    cases h
    exact hv
  · simp [reviewLoopBody, hv] at h

theorem reviewsLoop_eq (V : List String) (m : List (String × String)) (now : Nat)
    (reviews : List RawReview) :
    reviewsLoop V m now reviews
      = (reviews.filterMap (reviewLoopBody V m now),
         (reviews.filter (fun r => ¬ (r.app_id.getD "" ∈ V))).length) := by
  induction reviews with
  | nil => rfl
  | cons r rest ih =>
      by_cases hv : r.app_id.getD "" ∈ V
      · cases h : reviewLoopBody V m now r with
        | none => exact absurd ((reviewLoopBody_eq_none_iff V m now r).1 h) (by simpa using hv)
        | some t => simp [reviewsLoop, ih, h, List.filterMap_cons, List.filter_cons, hv]
      · have h : reviewLoopBody V m now r = none := (reviewLoopBody_eq_none_iff V m now r).2 hv
        simp [reviewsLoop, ih, h, List.filterMap_cons, List.filter_cons, hv]

theorem coerceTRow_app_id (t : TRow) (f : FinalReview) (h : coerceTRow t = some f) :
    f.app_id = t.app_id := by
  unfold coerceTRow at h
  split at h
  · cases h; rfl
  · cases h

theorem mem_of_mem_dropDupFirstBy {α : Type} (key : α → String) :
    ∀ (seen : List String) (l : List α) (x : α), x ∈ dropDupFirstBy key seen l → x ∈ l := by
  intro seen l
  induction l generalizing seen with
  | nil => intro x hx; cases hx
  | cons r rs ih =>
      intro x hx
      unfold dropDupFirstBy at hx
      split at hx
      · exact List.mem_cons_of_mem _ (ih seen x hx)
      · rcases List.mem_cons.1 hx with h | h
        · exact h ▸ List.mem_cons_self _ _
        · exact List.mem_cons_of_mem _ (ih _ x h)

theorem dropDupFirstBy_nodup_and_fresh {α : Type} (key : α → String) :
    ∀ (seen : List String) (l : List α),
      ((dropDupFirstBy key seen l).map key).Nodup ∧
      ∀ x ∈ dropDupFirstBy key seen l, key x ∉ seen := by
  intro seen l
  induction l generalizing seen with
  | nil => exact ⟨List.nodup_nil, by intro x hx; cases hx⟩
  | cons r rs ih =>
      unfold dropDupFirstBy
      split
      · exact ih seen
      · obtain ⟨hnd, hfresh⟩ := ih (key r :: seen)
        refine ⟨?_, ?_⟩
        · refine List.nodup_cons.2 ⟨?_, hnd⟩
          intro hc
          rcases List.mem_map.1 hc with ⟨x, hx, hkey⟩
          exact hfresh x hx (hkey ▸ List.mem_cons_self _ _)
        · intro x hx
          rcases List.mem_cons.1 hx with h | h
          · subst h; assumption
          · intro hc
            exact hfresh x h (List.mem_cons_of_mem _ hc)

theorem sum_group_lengths {α κ : Type} [DecidableEq κ] (key : α → κ) (l : List α) :
    (((l.map key).dedup).map (fun k => (l.filter (fun x => key x = k)).length)).sum
      = l.length := by
  have h := List.sum_map_count_dedup_eq_length (l.map key)
  rw [List.length_map] at h
  rw [← h]
  apply congrArg
  apply List.map_congr_left
  intro k _
  rw [List.count, List.countP_map, List.countP_eq_length_filter]
  apply congrArg
  apply List.filter_congr
  intro x _
  rfl

theorem keyGe_refl (x : Bool × Int × Nat) : keyGe x x = true := by
  obtain ⟨s, r, c⟩ := x
  simp [keyGe]

theorem keyGe_total (x y : Bool × Int × Nat) : keyGe x y = true ∨ keyGe y x = true := by
  obtain ⟨s1, r1, c1⟩ := x
  obtain ⟨s2, r2, c2⟩ := y
  cases s1 <;> cases s2 <;>
    simp only [keyGe, ne_eq, not_false_eq_true, not_true_eq_false, if_true, if_false,
      reduceIte, decide_eq_true_eq] <;>
    (try (left; rfl)) <;> (try (right; rfl)) <;>
    split_ifs <;> simp_all <;> omega

theorem keyGe_trans {x y z : Bool × Int × Nat}
    (h1 : keyGe x y = true) (h2 : keyGe y z = true) : keyGe x z = true := by
  obtain ⟨s1, r1, c1⟩ := x
  obtain ⟨s2, r2, c2⟩ := y
  obtain ⟨s3, r3, c3⟩ := z
  cases s1 <;> cases s2 <;> cases s3 <;>
    simp only [keyGe, ne_eq, not_false_eq_true, not_true_eq_false, if_true, if_false,
      reduceIte, decide_eq_true_eq] at h1 h2 ⊢ <;>
    split_ifs at h1 h2 ⊢ <;> simp_all <;> omega

theorem keyGe_antisymm {x y : Bool × Int × Nat}
    (h1 : keyGe x y = true) (h2 : keyGe y x = true) : x = y := by
  obtain ⟨s1, r1, c1⟩ := x
  obtain ⟨s2, r2, c2⟩ := y
  cases s1 <;> cases s2 <;>
    simp only [keyGe, ne_eq, not_false_eq_true, not_true_eq_false, if_true, if_false,
      reduceIte, decide_eq_true_eq, Prod.mk.injEq] at h1 h2 ⊢ <;>
    split_ifs at h1 h2 <;> simp_all <;> omega

instance : IsTotal DApp RankGe :=
  ⟨fun a b => keyGe_total (sortKey a) (sortKey b)⟩

instance : IsTrans DApp RankGe :=
  ⟨fun _ _ _ h1 h2 => keyGe_trans h1 h2⟩

instance : IsRefl DApp RankGe :=
  ⟨fun a => keyGe_refl (sortKey a)⟩

theorem pick_best_record_mem {g : List DApp} {r : DApp}
    (h : pick_best_record g = some r) : r ∈ g := by
  unfold pick_best_record at h
  split at h
  · exact List.mem_of_mem_head? h
  · exact (List.perm_insertionSort RankGe g).subset (List.mem_of_mem_head? h)

theorem pick_best_record_isSome {g : List DApp} (h : g ≠ []) :
    (pick_best_record g).isSome := by
  unfold pick_best_record
  split
  · rw [Option.isSome_iff_ne_none]
    intro hc
    exact h (List.head?_eq_none_iff.1 hc)
  · rw [Option.isSome_iff_ne_none]
    intro hc
    have := List.head?_eq_none_iff.1 hc
    have hlen := (List.perm_insertionSort RankGe g).length_eq
    rw [this] at hlen
    exact h (List.length_eq_zero.1 hlen.symm)

theorem head_insertionSort_ge {g : List DApp} {r : DApp} {t : List DApp}
    (hsort : g.insertionSort RankGe = r :: t) : ∀ y ∈ g, rankGe r y = true := by
  intro y hy
  have hs := List.sorted_insertionSort RankGe g
  rw [hsort] at hs
  have hy' : y ∈ r :: t := by
    rw [← hsort]
    exact ((List.perm_insertionSort RankGe g).mem_iff).2 hy
  rcases List.mem_cons.1 hy' with h | h
  · subst h; exact keyGe_refl (sortKey y)
  · exact (List.pairwise_cons.1 hs).1 y h

theorem pick_best_record_perm {g g' : List DApp} (hp : g.Perm g')
    (hinj : ∀ a ∈ g, ∀ b ∈ g, sortKey a = sortKey b → a = b) :
    pick_best_record g = pick_best_record g' := by
  have hlen := hp.length_eq
  unfold pick_best_record
  by_cases h1 : g.length = 1
  · rw [if_pos h1, if_pos (hlen ▸ h1)]
    obtain ⟨a, ha⟩ := List.length_eq_one.1 h1
    obtain ⟨b, hb⟩ := List.length_eq_one.1 (hlen ▸ h1)
    subst ha hb
    have : a = b := by simpa using hp.mem_iff.1 (List.mem_singleton_self a)
    rw [this]
  · rw [if_neg h1, if_neg (by omega)]
    by_cases hg : g = []
    · subst hg
      have hnil : g' = [] := List.Perm.eq_nil hp.symm
      rw [hnil]
    · have hg' : g' ≠ [] := by
        intro hc
        exact hg (List.Perm.eq_nil (hc ▸ hp))
      cases hsg : g.insertionSort RankGe with
      | nil =>
          exfalso
          have := (List.perm_insertionSort RankGe g).length_eq
          rw [hsg] at this
          exact hg (List.length_eq_zero.1 this.symm)
      | cons r t =>
        cases hsg' : g'.insertionSort RankGe with
        | nil =>
            exfalso
            have := (List.perm_insertionSort RankGe g').length_eq
            rw [hsg'] at this
            exact hg' (List.length_eq_zero.1 this.symm)
        | cons r' t' =>
            have hrmem : r ∈ g := (List.perm_insertionSort RankGe g).subset (hsg ▸ List.mem_cons_self _ _)
            have hrmem' : r' ∈ g := hp.symm.subset
              ((List.perm_insertionSort RankGe g').subset (hsg' ▸ List.mem_cons_self _ _))
            have h1 : rankGe r r' = true := head_insertionSort_ge hsg r' hrmem'
            have h2 : rankGe r' r = true :=
              head_insertionSort_ge hsg' r (hp.subset hrmem)
            have hkey : sortKey r = sortKey r' := keyGe_antisymm h1 h2
            have : r = r' := hinj r hrmem r' hrmem' hkey
            simp [this]

theorem filter_filterMap_keys_of_not_mem (f : String → Option DApp) (k : String) :
    ∀ (keys : List String), k ∉ keys →
      (∀ k' ∈ keys, ∀ r, f k' = some r → r.appId = k') →
      (keys.filterMap f).filter (fun r => r.appId = k) = [] := by
  intro keys
  induction keys with
  | nil => intro _ _; rfl
  | cons k0 ks ih =>
      intro hk hall
      rw [List.filterMap_cons]
      cases h : f k0 with
      | none =>
          exact ih (fun hc => hk (List.mem_cons_of_mem _ hc))
            (fun k' h' => hall k' (List.mem_cons_of_mem _ h'))
      | some r =>
          rw [List.filter_cons]
          have hrk : r.appId = k0 := hall k0 (List.mem_cons_self _ _) r h
          have hne : ¬ (r.appId = k) := by
            rw [hrk]
            intro hc
            exact hk (hc ▸ List.mem_cons_self _ _)
          rw [if_neg (by simp only [decide_eq_true_eq]; exact hne)]
          exact ih (fun hc => hk (List.mem_cons_of_mem _ hc))
            (fun k' h' => hall k' (List.mem_cons_of_mem _ h'))

theorem filter_filterMap_keys (f : String → Option DApp) (k : String) :
    ∀ (keys : List String), keys.Nodup → k ∈ keys →
      (∀ k' ∈ keys, ∀ r, f k' = some r → r.appId = k') →
      (keys.filterMap f).filter (fun r => r.appId = k) = (f k).toList := by
  intro keys
  induction keys with
  | nil => intro _ hk; cases hk
  | cons k0 ks ih =>
      intro hnd hk hall
      obtain ⟨hk0, hksnd⟩ := List.nodup_cons.1 hnd
      rw [List.filterMap_cons]
      by_cases hkk : k = k0
      · subst hkk
        cases h : f k with
        | none =>
            exact filter_filterMap_keys_of_not_mem f k ks hk0
              (fun k' h' => hall k' (List.mem_cons_of_mem _ h'))
        | some r =>
            rw [List.filter_cons]
            have hrk : r.appId = k := hall k (List.mem_cons_self _ _) r h
            rw [if_pos (by simp only [decide_eq_true_eq]; exact hrk)]
            rw [filter_filterMap_keys_of_not_mem f k ks hk0
              (fun k' h' => hall k' (List.mem_cons_of_mem _ h'))]
            rfl
      · have hkks : k ∈ ks := by
          rcases List.mem_cons.1 hk with hc | hc
          · exact absurd hc hkk
          · exact hc
        cases h : f k0 with
        | none =>
            exact ih hksnd hkks (fun k' h' => hall k' (List.mem_cons_of_mem _ h'))
        | some r =>
            rw [List.filter_cons]
            have hrk : r.appId = k0 := hall k0 (List.mem_cons_self _ _) r h
            have hne : ¬ (r.appId = k) := by
              rw [hrk]
              exact fun hc => hkk hc.symm
            rw [if_neg (by simp only [decide_eq_true_eq]; exact hne)]
            exact ih hksnd hkks (fun k' h' => hall k' (List.mem_cons_of_mem _ h'))

theorem sortedKeys_eq_of_perm {l l' : List String} (h : l.Perm l') :
    l.dedup.insertionSort (fun a b => a ≤ b) = l'.dedup.insertionSort (fun a b => a ≤ b) := by
  apply List.eq_of_perm_of_sorted (r := fun a b : String => a ≤ b)
  · exact (List.perm_insertionSort _ _).trans ((h.dedup).trans (List.perm_insertionSort _ _).symm)
  · exact List.sorted_insertionSort _ _
  · exact List.sorted_insertionSort _ _

/-! Claim theorems. -/

/-- C1: for every input batch of raw app records and every appId shared by
two or more records, duplicate resolution keeps exactly one record for that
key, namely the first record of the stable sort by the descending ranking
keys (non-null score, ratings count, completeness). -/
theorem c1_duplicate_resolution (apps : List DApp) (k : String)
    (hdup : 2 ≤ (apps.filter (fun a => a.appId = k)).length) :
    (handle_duplicates_smart apps).filter (fun a => a.appId = k)
      = (((apps.filter (fun a => a.appId = k)).insertionSort RankGe).head?).toList := by
  unfold handle_duplicates_smart
  have hnd : (((apps.map (fun a => a.appId)).dedup).insertionSort (fun a b => a ≤ b)).Nodup :=
    ((List.perm_insertionSort _ _).nodup_iff).2 (List.nodup_dedup _)
  have hk : k ∈ ((apps.map (fun a => a.appId)).dedup).insertionSort (fun a b => a ≤ b) := by
    have hpos : 0 < (apps.filter (fun a => a.appId = k)).length := by omega
    obtain ⟨a, ha⟩ := List.exists_mem_of_length_pos hpos
    have hmem := List.mem_filter.1 ha
    have hak : a.appId = k := by simpa using hmem.2
    apply ((List.perm_insertionSort _ _).mem_iff).2
    apply List.mem_dedup.2
    exact hak ▸ List.mem_map_of_mem _ hmem.1
  have hall : ∀ k' ∈ ((apps.map (fun a => a.appId)).dedup).insertionSort (fun a b => a ≤ b),
      ∀ r, pick_best_record (apps.filter (fun a => a.appId = k')) = some r → r.appId = k' := by
    intro k' _ r hr
    have hmem := pick_best_record_mem hr
    simpa using (List.mem_filter.1 hmem).2
  rw [filter_filterMap_keys _ _ _ hnd hk hall]
  unfold pick_best_record
  rw [if_neg (by omega)]

/-- C1 witness: on the spec example (two rows for appId x, the second with a
non-null score 4.2 and 500 ratings), the resolver keeps exactly the second
row. -/
theorem c1_duplicate_resolution_witness :
    2 ≤ (([⟨"x", some "A", none, none, 0, none, none, none⟩,
           ⟨"x", some "B", none, some (mkRat 21 5), 500, none, none, none⟩] : List DApp).filter
             (fun a => a.appId = "x")).length ∧
    (handle_duplicates_smart
        [⟨"x", some "A", none, none, 0, none, none, none⟩,
         ⟨"x", some "B", none, some (mkRat 21 5), 500, none, none, none⟩]).filter
        (fun a => a.appId = "x")
      = [⟨"x", some "B", none, some (mkRat 21 5), 500, none, none, none⟩] := by
  refine ⟨by decide, ?_⟩
  rw [c1_duplicate_resolution _ _ (by decide)]
  decide

/-- C4 counterexample: two records with the same appId that tie on all three
ranking keys (both have a score, equal ratings, equal completeness) but
differ in their title; swapping the input order changes which record
survives, refuting order-independence as claimed. -/
theorem c4_counterexample :
    ([(⟨"x", some "A", none, some (mkRat 4 1), 10, none, none, none⟩ : DApp),
       ⟨"x", some "B", none, some (mkRat 4 1), 10, none, none, none⟩].Perm
      [⟨"x", some "B", none, some (mkRat 4 1), 10, none, none, none⟩,
       ⟨"x", some "A", none, some (mkRat 4 1), 10, none, none, none⟩]) ∧
    handle_duplicates_smart
        [⟨"x", some "A", none, some (mkRat 4 1), 10, none, none, none⟩,
         ⟨"x", some "B", none, some (mkRat 4 1), 10, none, none, none⟩]
      ≠ handle_duplicates_smart
        [⟨"x", some "B", none, some (mkRat 4 1), 10, none, none, none⟩,
         ⟨"x", some "A", none, some (mkRat 4 1), 10, none, none, none⟩] :=
  ⟨List.Perm.swap _ _ _, by decide⟩

/-- C4 (amended): duplicate resolution is order-independent provided no two
distinct records of the same appId tie on all three ranking keys; under that
proviso any two permutations of the input produce the same resolved list. -/
theorem c4_determinism (l l' : List DApp) (hperm : l.Perm l')
    (hinj : ∀ a ∈ l, ∀ b ∈ l, a.appId = b.appId → sortKey a = sortKey b → a = b) :
    handle_duplicates_smart l = handle_duplicates_smart l' := by
  unfold handle_duplicates_smart
  rw [sortedKeys_eq_of_perm (hperm.map _)]
  apply List.filterMap_congr
  intro k _
  apply pick_best_record_perm (hperm.filter _)
  intro a ha b hb hkey
  have ha' := List.mem_filter.1 ha
  have hb' := List.mem_filter.1 hb
  have hak : a.appId = k := by simpa using ha'.2
  have hbk : b.appId = k := by simpa using hb'.2
  exact hinj a ha'.1 b hb'.1 (by rw [hak, hbk]) hkey

/-- C4 witness: a two-record batch with distinct ranking keys: both orders
of the input resolve to the same list. -/
theorem c4_determinism_witness :
    ([(⟨"x", some "A", none, some (mkRat 4 1), 10, none, none, none⟩ : DApp),
       ⟨"x", some "B", none, none, 3, none, none, none⟩].Perm
      [⟨"x", some "B", none, none, 3, none, none, none⟩,
       ⟨"x", some "A", none, some (mkRat 4 1), 10, none, none, none⟩]) ∧
    handle_duplicates_smart
        [⟨"x", some "A", none, some (mkRat 4 1), 10, none, none, none⟩,
         ⟨"x", some "B", none, none, 3, none, none, none⟩]
      = handle_duplicates_smart
        [⟨"x", some "B", none, none, 3, none, none, none⟩,
         ⟨"x", some "A", none, some (mkRat 4 1), 10, none, none, none⟩] :=
  ⟨List.Perm.swap _ _ _,
   c4_determinism _ _ (List.Perm.swap _ _ _) (by decide)⟩

/-- C7: the installs string is coerced by stripping commas and plus signs
(so the string 1,000,000+ yields the integer 1000000); a record whose
residue is non-numeric (such as abc) is dropped and counted as one error,
and the loop characterisation shows the batch always continues over the
remaining records, never raising: the loop totals are exactly the
successful coercions plus a count of the failures. -/
theorem c7_installs_coercion :
    (∀ apps : List RawApp,
        transformAppsLoop apps
          = (apps.filterMap coerceApp, (apps.filter (fun a => (coerceApp a).isNone)).length)) ∧
    pyInt (stripCommasPlus "1,000,000+") = some 1000000 ∧
    coerceApp ⟨some "g", none, none, none, none, some (.s "1,000,000+"), none, none, none⟩
      = some ⟨"g", "Unknown", "Unknown", none, 0, 1000000, "Unknown", 0⟩ ∧
    coerceApp ⟨some "b", none, none, none, none, some (.s "abc"), none, none, none⟩ = none ∧
    transformAppsLoop
        [⟨some "g", none, none, none, none, some (.s "1,000,000+"), none, none, none⟩,
         ⟨some "b", none, none, none, none, some (.s "abc"), none, none, none⟩]
      = ([⟨"g", "Unknown", "Unknown", none, 0, 1000000, "Unknown", 0⟩], 1) :=
  ⟨transformAppsLoop_eq, by decide, by decide, by decide, by decide⟩

/-- C9: the transformation stage aborts with an error exactly when zero
apps survive transformation; with at least one surviving app it returns the
saved outputs normally, with the no-reviews warning flag set exactly when
zero reviews survived. -/
theorem c9_fatal_condition (apps : List RawApp) (reviews : List RawReview) (now : Nat) :
    (transformationMain apps reviews now = .error "No apps transformed successfully"
        ↔ (transform_apps_data apps).1 = []) ∧
    ((transform_apps_data apps).1 ≠ [] →
      transformationMain apps reviews now
        = .ok { catalog := (transform_apps_data apps).1,
                reviewsTable := (transform_reviews_data reviews
                    ((transform_apps_data apps).1.map (fun r => r.appId))
                    (get_app_name_mapping apps) now).1,
                warnedNoReviews :=
                  ((transform_reviews_data reviews
                    ((transform_apps_data apps).1.map (fun r => r.appId))
                    (get_app_name_mapping apps) now).1.rows.length = 0) }) := by
  by_cases hc : (transform_apps_data apps).1 = []
  · have h0 : ¬ (0 < (transform_apps_data apps).1.length) := by simp [hc]
    simp [transformationMain, h0, hc]
  · have h0 : 0 < (transform_apps_data apps).1.length := List.length_pos.2 hc
    simp [transformationMain, h0, hc]

/-- C10: whenever zero review records survive transformation, the returned
table still carries exactly the eight canonical columns of the review
schema (this holds on both the early-return path and the all-rows-dropped
path). -/
theorem c10_empty_schema (reviews : List RawReview) (V : List String)
    (m : List (String × String)) (now : Nat)
    (_h : (transform_reviews_data reviews V m now).1.rows = []) :
    (transform_reviews_data reviews V m now).1.cols
      = ["app_id", "app_name", "reviewId", "userName", "score", "content",
         "thumbsUpCount", "at"] := by
  unfold transform_reviews_data
  rcases hsplit : reviewsLoop V m now reviews with ⟨trows, skipped⟩
  by_cases he : trows.isEmpty <;> simp [hsplit, he, emptyReviewCols, reviewDictCols]

/-- C10 witness: the empty input batch yields an empty table with the eight
canonical columns. -/
theorem c10_empty_schema_witness :
    (transform_reviews_data [] [] [] 0).1.rows = [] ∧
    (transform_reviews_data [] [] [] 0).1.cols
      = ["app_id", "app_name", "reviewId", "userName", "score", "content",
         "thumbsUpCount", "at"] :=
  ⟨by decide, c10_empty_schema [] [] [] 0 (by decide)⟩

/-- C2 counterexample: a raw review whose at key is absent (and which is
otherwise valid, with app_id in the catalog) is not excluded: with the
current time 77 the single surviving output row carries timestamp 77, the
substituted wall-clock time, refuting the claim that such records are
marked invalid and that the current time is never substituted. -/
theorem c2_counterexample :
    ((transform_reviews_data
        [⟨some "a", some "r1", none, some (.i 5), none, none, none, none, none, none⟩]
        ["a"] [] 77).1.rows.map (fun r => r.at')) = [77] := by
  decide

/-- C2 (amended): a review whose at value is a present, non-empty string
that does not parse as a timestamp is excluded from the transformed output;
only absent or empty (falsy) at values receive the substituted current
time. -/
theorem c2_unparseable_timestamp_excluded (V : List String) (m : List (String × String))
    (now : Nat) (r : RawReview) (s : String) (hat : r.at' = some (.str s)) (hne : s ≠ "")
    (hbad : to_datetime s = none) :
    (transform_reviews_data [r] V m now).1.rows = [] := by
  by_cases hv : r.app_id.getD "" ∈ V
  · have hb : reviewLoopBody V m now r
        = some { app_id := r.app_id.getD ""
                 app_name := (lookupLast m (r.app_id.getD "")).getD "Unknown"
                 reviewId := r.reviewId.getD ""
                 userName := r.userName.getD "Anonymous"
                 score := r.score.getD (r.rating.getD (.i 0))
                 content := normWs (r.content.getD "")
                 thumbsUpCount := r.thumbsUpCount.getD (r.thumbsUp.getD (r.helpfulCount.getD (.i 0)))
                 at' := s } := by
      unfold reviewLoopBody
      rw [if_pos hv, hat]
      simp [atStr, hne]
    have hloop : reviewsLoop V m now [r]
        = ([{ app_id := r.app_id.getD ""
              app_name := (lookupLast m (r.app_id.getD "")).getD "Unknown"
              reviewId := r.reviewId.getD ""
              userName := r.userName.getD "Anonymous"
              score := r.score.getD (r.rating.getD (.i 0))
              content := normWs (r.content.getD "")
              thumbsUpCount := r.thumbsUpCount.getD (r.thumbsUp.getD (r.helpfulCount.getD (.i 0)))
              at' := s }], 0) := by
      simp [reviewsLoop, hb]
    have hcoerce : ∀ t : TRow, t.at' = s → coerceTRow t = none := by
      intro t ht
      unfold coerceTRow
      rw [ht, hbad]
      cases toNumeric t.score <;> rfl
    simp [transform_reviews_data, hloop, dropDupFirstBy, hcoerce]
  · have hb : reviewLoopBody V m now r = none := (reviewLoopBody_eq_none_iff V m now r).2 hv
    simp [transform_reviews_data, reviewsLoop, hb]

/-- C2 amended-claim witness: a review whose at value is the non-empty
unparseable string banana produces no output row. -/
theorem c2_unparseable_timestamp_excluded_witness :
    (⟨some "a", some "r3", none, some (.i 5), none, none, none, none, none,
        some (.str "banana")⟩ : RawReview).at' = some (.str "banana") ∧
    ("banana" ≠ "") ∧
    to_datetime "banana" = none ∧
    (transform_reviews_data
        [⟨some "a", some "r3", none, some (.i 5), none, none, none, none, none,
          some (.str "banana")⟩] ["a"] [] 0).1.rows = [] :=
  ⟨rfl, by decide, by decide,
   c2_unparseable_timestamp_excluded ["a"] [] 0 _ "banana" rfl (by decide) (by decide)⟩

/-- C3 counterexample: a review with score 6 (out of the range 1 to 5), a
valid timestamp and a catalogued app_id survives transform_reviews_data —
the output used for aggregation — with score 6, refuting the claim that
such reviews are rejected before aggregation. -/
theorem c3_counterexample :
    ((transform_reviews_data
        [⟨some "a", some "r2", none, some (.s "6"), none, none, none, none, none,
          some (.dt 5)⟩] ["a"] [] 0).1.rows.map (fun r => r.score)) = [6] ∧
    ¬ ((6 : ℚ) ≤ 5) :=
  ⟨by decide, by decide⟩

/-- C3 (amended): it is the scenario-3 validation gate, not the main
transformation, that enforces the score range: every row surviving
process_with_validation has a present score within 1 and 5. -/
theorem c3_gate_score_range (rows : List CsvRow) (r : ConvRow)
    (hr : r ∈ process_with_validation rows) :
    ∃ s, r.score = some s ∧ 1 ≤ s ∧ s ≤ 5 := by
  unfold process_with_validation at hr
  obtain ⟨r1, h1, rfl⟩ := List.mem_map.1 hr
  obtain ⟨r2, h2, rfl⟩ := List.mem_map.1 h1
  have h3 := List.mem_filter.1 h2
  have h4 := List.mem_filter.1 h3.1
  have h5 := List.mem_filter.1 h4.1
  cases hs : r2.score with
  | none =>
      exfalso
      have hsome := h5.2
      rw [hs] at hsome
      cases hsome
  | some s =>
      refine ⟨s, by simp [fillText, fixThumbs, hs], ?_, ?_⟩ <;>
      · have hrange := h4.2
        simp only [outOfRange, hs, Bool.not_eq_true'] at hrange
        simp only [Bool.or_eq_false_iff, decide_eq_false_iff_not, not_lt] at hrange
        first
          | exact hrange.1
          | exact hrange.2

/-- C3 amended-claim witness: a gate input row with score 4 survives and
the theorem yields its in-range score. -/
theorem c3_gate_score_range_witness :
    ((⟨some "id", some "Anonymous", some (mkRat 4 1), some "", some 0, some 5⟩ : ConvRow)
        ∈ process_with_validation [⟨some "id", none, some "4", none, some "-3", some "D5"⟩]) ∧
    (∃ s, (⟨some "id", some "Anonymous", some (mkRat 4 1), some "", some 0, some 5⟩ :
        ConvRow).score = some s ∧ 1 ≤ s ∧ s ≤ 5) :=
  ⟨by decide,
   c3_gate_score_range [⟨some "id", none, some "4", none, some "-3", some "D5"⟩] _ (by decide)⟩

/-- C6: every row of the transformed review output references an appId of
the deduplicated catalog built in the same run; reviews referencing any
other app_id are excluded and counted by the skipped counter; and the
catalog is unique-keyed, so a downstream join matches each surviving review
exactly once. -/
theorem c6_referential_soundness (apps : List RawApp) (reviews : List RawReview) (now : Nat) :
    (∀ row ∈ (transform_reviews_data reviews
        ((transform_apps_data apps).1.map (fun r => r.appId))
        (get_app_name_mapping apps) now).1.rows,
      row.app_id ∈ (transform_apps_data apps).1.map (fun r => r.appId)) ∧
    (transform_reviews_data reviews
        ((transform_apps_data apps).1.map (fun r => r.appId))
        (get_app_name_mapping apps) now).2
      = (reviews.filter (fun r => ¬ (r.app_id.getD ""
          ∈ (transform_apps_data apps).1.map (fun r => r.appId)))).length ∧
    ((transform_apps_data apps).1.map (fun r => r.appId)).Nodup := by
  refine ⟨?_, ?_, ?_⟩
  · intro row hrow
    set V := (transform_apps_data apps).1.map (fun r => r.appId) with hV
    set m := get_app_name_mapping apps with hm
    have hsplit : reviewsLoop V m now reviews
        = (reviews.filterMap (reviewLoopBody V m now),
           (reviews.filter (fun r => ¬ (r.app_id.getD "" ∈ V))).length) :=
      reviewsLoop_eq V m now reviews
    by_cases he : (reviews.filterMap (reviewLoopBody V m now)).isEmpty
    · have : (transform_reviews_data reviews V m now).1.rows = [] := by
        simp [transform_reviews_data, hsplit, he]
      rw [this] at hrow
      cases hrow
    · have : (transform_reviews_data reviews V m now).1.rows
          = (dropDupFirstBy (fun t => t.reviewId) []
              (reviews.filterMap (reviewLoopBody V m now))).filterMap coerceTRow := by
        simp [transform_reviews_data, hsplit, he]
      rw [this] at hrow
      obtain ⟨t, ht, hct⟩ := List.mem_filterMap.1 hrow
      have ht' : t ∈ reviews.filterMap (reviewLoopBody V m now) :=
        mem_of_mem_dropDupFirstBy _ [] _ t ht
      obtain ⟨r, _, hbody⟩ := List.mem_filterMap.1 ht'
      rw [coerceTRow_app_id t row hct]
      exact reviewLoopBody_app_id V m now r t hbody
  · set V := (transform_apps_data apps).1.map (fun r => r.appId) with hV
    set m := get_app_name_mapping apps with hm
    have hsplit : reviewsLoop V m now reviews
        = (reviews.filterMap (reviewLoopBody V m now),
           (reviews.filter (fun r => ¬ (r.app_id.getD "" ∈ V))).length) :=
      reviewsLoop_eq V m now reviews
    by_cases he : (reviews.filterMap (reviewLoopBody V m now)).isEmpty <;>
      simp [transform_reviews_data, hsplit, he]
  · exact (dropDupFirstBy_nodup_and_fresh (fun r : AppRow => r.appId) []
      (transformAppsLoop apps).1).1

/-- The negative-or-missing condition on a converted thumbsUpCount cell. -/
def negOrMissing : Option ℚ → Prop
  | some v => v < 0
  | none => True

instance (o : Option ℚ) : Decidable (negOrMissing o) :=
  match o with
  | none => isTrue trivial
  | some v => inferInstanceAs (Decidable (v < 0))

/-- C8: a review row that passes the score and timestamp validation of the
quality gate and whose thumbsUpCount is negative or missing is kept in the
accepted output with its thumbsUpCount repaired in place to 0. -/
theorem c8_thumbs_repair (rows : List CsvRow) (r : CsvRow) (hmem : r ∈ rows)
    (hscore : ∃ s, r.score.bind parseDec = some s ∧ 1 ≤ s ∧ s ≤ 5)
    (hat : (r.at'.bind to_datetime).isSome)
    (hneg : negOrMissing (r.thumbsUpCount.bind parseDec)) :
    fillText (fixThumbs (convertTypes r)) ∈ process_with_validation rows ∧
    (fillText (fixThumbs (convertTypes r))).thumbsUpCount = some 0 := by
  obtain ⟨s, hs, hs1, hs5⟩ := hscore
  constructor
  · unfold process_with_validation
    apply List.mem_map_of_mem
    apply List.mem_map_of_mem
    refine List.mem_filter.2 ⟨List.mem_filter.2 ⟨List.mem_filter.2
      ⟨List.mem_map_of_mem _ hmem, ?_⟩, ?_⟩, ?_⟩
    · simp [convertTypes, hs]
    · have h1 : ¬ (s < 1) := not_lt.2 hs1
      have h5 : ¬ (5 < s) := not_lt.2 hs5
      simp [outOfRange, convertTypes, hs, h1, h5]
    · simpa [convertTypes] using hat
  · cases ht : r.thumbsUpCount.bind parseDec with
    | none => simp [fillText, fixThumbs, convertTypes, ht]
    | some v =>
        have hv : v < 0 := by
          have hh := hneg
          rw [ht] at hh
          exact hh
        simp [fillText, fixThumbs, convertTypes, ht, hv]

/-- C8 witness: a gate row with score 4, timestamp D5 and thumbsUpCount -3
is kept with its counter repaired to 0. -/
theorem c8_thumbs_repair_witness :
    ((⟨some "id", none, some "4", none, some "-3", some "D5"⟩ : CsvRow) ∈
        ([⟨some "id", none, some "4", none, some "-3", some "D5"⟩] : List CsvRow)) ∧
    (∃ s, (some "4" : Option String).bind parseDec = some s ∧ 1 ≤ s ∧ s ≤ 5) ∧
    ((some "D5" : Option String).bind to_datetime).isSome ∧
    negOrMissing ((some "-3" : Option String).bind parseDec) ∧
    fillText (fixThumbs (convertTypes ⟨some "id", none, some "4", none, some "-3", some "D5"⟩))
      ∈ process_with_validation [⟨some "id", none, some "4", none, some "-3", some "D5"⟩] ∧
    (fillText (fixThumbs (convertTypes
        ⟨some "id", none, some "4", none, some "-3", some "D5"⟩))).thumbsUpCount = some 0 := by
  refine ⟨by decide, ⟨mkRat 4 1, by decide, by decide, by decide⟩, by decide, by decide, ?_⟩
  exact c8_thumbs_repair _ _ (by decide)
    ⟨mkRat 4 1, by decide, by decide, by decide⟩ (by decide) (by decide)

/-- C5: aggregate conservation — the num_reviews of the AppKPI rows sum to
the number of accepted reviews, and the daily_num_reviews of the
DailyMetric rows sum to the same number: every accepted review lands in
exactly one app group and exactly one date group. -/
theorem c5_aggregate_conservation (rows : List FinalReview) :
    ((create_app_level_kpis rows).map (fun k => k.num_reviews)).sum = rows.length ∧
    ((create_daily_metrics rows).map (fun d => d.daily_num_reviews)).sum = rows.length := by
  constructor
  · unfold create_app_level_kpis
    rw [List.Perm.sum_eq ((List.perm_insertionSort _ _).map _)]
    rw [List.map_map]
    rw [List.Perm.sum_eq ((List.perm_insertionSort _ _).map _)]
    exact sum_group_lengths (fun r => r.app_id) rows
  · unfold create_daily_metrics
    rw [List.Perm.sum_eq ((List.perm_insertionSort _ _).map _)]
    rw [List.map_map]
    rw [List.Perm.sum_eq ((List.perm_insertionSort _ _).map _)]
    exact sum_group_lengths (fun r => dateOf r.at') rows
